import Mathlib

/-!
# pgreplicaview: topology discovery

A shallow embedding of `main.go` (package `main` of billhathaway/pgreplicaview):
the `controller` with its `servers` map, `NewServer`, `WalkServers` and the
classification loop of `renderSVG`.

* Go maps with string keys are association lists with pairwise distinct keys.
* `time.Time` is a natural number.
* A Go `error` is its message.
* The database is an oracle: what `sql.Open`, the two queries and the row scans
  answer for one call of `NewServer` is a `Probe`; a `World` gives the probe
  answered to the n-th call made since the process started.
* The recursion of `WalkServers` is bounded by fuel (the depth of the call stack).
-/

namespace PgReplicaView

/-! ## Go maps -/

/-- Go `map[string]β`: an association list; `GoMap.set` keeps the keys distinct. -/
abbrev GoMap (β : Type) := List (String × β)

/-- Lookup `m[k]` with the comma-ok result as an option. -/
def GoMap.get {β : Type} : GoMap β → String → Option β
  | [], _ => none
  | (k', v) :: m, k => if k' = k then some v else GoMap.get m k

/-- Assignment `m[k] = v`: replaces the entry of `k` when there is one, adds one otherwise. -/
def GoMap.set {β : Type} : GoMap β → String → β → GoMap β
  | [], k, v => [(k, v)]
  | (k', v') :: m, k, v => if k' = k then (k, v) :: m else (k', v') :: GoMap.set m k v

/-! ## Data model (`main.go` lines 39-58) -/

/-- The `server` struct. `Clients` is `none` for the nil map. -/
structure server where
  DBType : String
  Address : String
  Follows : String
  LastSeen : Nat
  Clients : Option (GoMap Nat)
  deriving DecidableEq, Repr

/-- The `controller` struct. -/
structure controller where
  servers : GoMap server
  deriving DecidableEq, Repr

/-- `NewController`: a controller with an empty map. -/
def NewController : controller := { servers := [] }

/-- `len(m)` of a possibly nil map. -/
def lenClients : Option (GoMap Nat) → Nat
  | none => 0
  | some m => m.length

/-! ## The database seen from `NewServer` -/

deriving instance DecidableEq for Except

/-- What the database layer answers during one call of `NewServer`:
`sql.Open` fails; or `pg_is_in_recovery()` fails; or `db.Query` on
`pg_stat_replication` returns an error; or both calls return without error,
`time.Now()` is `now`, `rows` are the results of `rows.Scan` on the rows for which
`rows.Next()` is true (`Except.error` for a scan that fails), and `rowsErr` is what
`rows.Err()` holds once `rows.Next()` is false: `some err` when the query failed while
its rows were read, so that the rows end early, `none` when the rows were read to the end. -/
inductive Probe where
  | openFails (err : String)
  | recoveryFails (err : String)
  | clientsFails (err : String)
  | rows (inRecovery : Bool) (now : Nat) (rows : List (Except String String))
      (rowsErr : Option String)
  deriving DecidableEq, Repr

/-- A probe that succeeds: every row scans and the rows are read to the end. -/
def Probe.success (inRecovery : Bool) (now : Nat) (cs : List String) : Probe :=
  Probe.rows inRecovery now (cs.map Except.ok) none

/-! ## `NewServer` (`main.go` lines 75-121) -/

/-- The loop `for rows.Next() { ... }` of `NewServer` (lines 97-109). -/
def scanRows (now : Nat) :
    List (Except String String) → server → List String → Except String (server × List String)
  | [], s, followers => Except.ok (s, followers)
  | Except.error err :: _, _, _ => Except.error err
  | Except.ok clientAddr :: rest, s, followers =>
      let clients : GoMap Nat :=
        match s.Clients with
        | none => []
        | some m => m
      scanRows now rest { s with Clients := some (GoMap.set clients clientAddr now) }
        (followers ++ [clientAddr])

/-- `NewServer(address, follows)` on controller `c` when the database answers `p`:
the controller afterwards and the returned `([]string, error)`. The source never calls
`rows.Err()`, so `rowsErr` is not read. -/
def NewServer (c : controller) (p : Probe) (address follows : String) :
    controller × Except String (List String) :=
  let s : server := { DBType := "", Address := "", Follows := "", LastSeen := 0, Clients := none }
  match p with
  | Probe.openFails err => (c, Except.error err)
  | Probe.recoveryFails err => (c, Except.error err)
  | Probe.clientsFails err => (c, Except.error err)
  | Probe.rows inRecovery now rows _ =>
      let s := { s with Follows := follows, Address := address, LastSeen := now }
      match scanRows now rows s [] with
      | Except.error err => (c, Except.error err)
      | Except.ok (s, followers) =>
          let s :=
            if !inRecovery then { s with DBType := "master" }
            else if lenClients s.Clients > 0 then { s with DBType := "relay" }
            else { s with DBType := "replica" }
          ({ servers := GoMap.set c.servers address s }, Except.ok followers)

/-! ## `WalkServers` (`main.go` lines 60-72) -/

/-- One call of `NewServer` made during a walk, with the answer it got. -/
structure Call where
  address : String
  follows : String
  answer : Probe
  deriving DecidableEq, Repr

/-- The database layer over time: `w n address` is what a call of `NewServer` on
`address` is answered when `n` calls were made before it. -/
abbrev World := Nat → String → Probe

/-- State threaded through a walk: the controller and the calls of `NewServer`
made so far, newest first. -/
structure Run where
  c : controller
  trace : List Call
  deriving DecidableEq, Repr

/-- How a walk ends: it returns (`none` is the nil error), or the fuel runs out. -/
inductive WalkResult where
  | returned (err : Option String)
  | outOfFuel
  deriving DecidableEq, Repr

/-- The loop `for _, follower := range followers` of `WalkServers` (lines 65-70);
`walk follower` is the recursive call `c.WalkServers(follower, address)`. -/
def walkFollowers (walk : String → Run → Run × WalkResult) :
    List String → Run → Run × WalkResult
  | [], st => (st, WalkResult.returned none)
  | follower :: rest, st =>
      match walk follower st with
      | (st', WalkResult.returned none) => walkFollowers walk rest st'
      | (st', r) => (st', r)

/-- `WalkServers(address, leader)` with the recursion depth bounded by the fuel. -/
def WalkServers (w : World) : Nat → String → String → Run → Run × WalkResult
  | 0, _, _, st => (st, WalkResult.outOfFuel)
  | fuel + 1, address, leader, st =>
      let p := w st.trace.length address
      match NewServer st.c p address leader with
      | (c', Except.error err) =>
          ({ c := c', trace := { address := address, follows := leader, answer := p } :: st.trace },
            WalkResult.returned (some err))
      | (c', Except.ok followers) =>
          walkFollowers (fun follower st' => WalkServers w fuel follower address st') followers
            { c := c', trace := { address := address, follows := leader, answer := p } :: st.trace }

/-- The state of a process that has just started: `NewController()`, no call made. -/
def Run.init : Run := { c := NewController, trace := [] }

/-- Lookup in a possibly nil map: a nil map has no key. -/
def clientsGet : Option (GoMap Nat) → String → Option Nat
  | none, _ => none
  | some m, k => GoMap.get m k

/-- The DBType that the classification at lines 110-118 gives. -/
def classify (inRecovery : Bool) (cs : List String) : String :=
  if inRecovery = false then "master" else if cs ≠ [] then "relay" else "replica"

/-! ## `renderSVG` (`main.go` lines 123-165) -/

/-- The local `point` struct of `renderSVG`. -/
structure point where
  x : Nat
  y : Nat
  deriving DecidableEq, Repr

/-- The variables that the first loop of `renderSVG` updates. -/
structure svgNodes where
  nodes : GoMap point
  relays : Nat
  replicas : Nat
  deriving DecidableEq, Repr

/-- One iteration of `for name, val := range c.servers` (lines 141-164); `none` is the
`default` branch, where `log.Fatalf` ends the process. The calls that draw the circle
and the text are left out. -/
def renderSVGNode (acc : svgNodes) (name : String) (val : server) : Option svgNodes :=
  if val.DBType = "master" then
    some { acc with nodes := GoMap.set acc.nodes name { x := 100, y := 150 } }
  else if val.DBType = "relay" then
    let relays := acc.relays + 1
    some { acc with relays := relays,
                    nodes := GoMap.set acc.nodes name { x := 100 + 150 * relays, y := 150 } }
  else if val.DBType = "replica" then
    some { acc with replicas := acc.replicas + 1,
                    nodes := GoMap.set acc.nodes name { x := 100 + 150 * acc.replicas, y := 300 } }
  else none

/-- The first loop of `renderSVG` over the entries of `c.servers` in the order `entries`
(Go leaves the iteration order of a map open). -/
def renderSVGNodes : List (String × server) → svgNodes → Option svgNodes
  | [], acc => some acc
  | (name, val) :: rest, acc =>
      match renderSVGNode acc name val with
      | none => none
      | some acc' => renderSVGNodes rest acc'

/-- The variables of `renderSVG` before its first loop: `nodes` empty, both counters 0. -/
def svgNodes.start : svgNodes := { nodes := [], relays := 0, replicas := 0 }

/-! ## Vocabulary of the properties -/

/-- Controllers that a process can hold: `NewController()`, then any calls of `NewServer`
and `WalkServers`, whatever the database answers and wherever a walk stands. -/
inductive Reachable : controller → Prop where
  | init : Reachable NewController
  | newServer (c : controller) (p : Probe) (address follows : String) :
      Reachable c → Reachable (NewServer c p address follows).1
  | walk (w : World) (fuel : Nat) (address leader : String) (c : controller) (trace : List Call) :
      Reachable c → Reachable (WalkServers w fuel address leader { c := c, trace := trace }).1.c

/-- The record that `NewServer(address, follows)` stores when it is answered `p`, if any. -/
def stored (p : Probe) (address follows : String) : Option server :=
  match (NewServer NewController p address follows).2 with
  | Except.error _ => none
  | Except.ok _ => GoMap.get (NewServer NewController p address follows).1.servers address

/-- The call wrote a record for address `k`. -/
def Call.wrote (call : Call) (k : String) : Prop :=
  call.address = k ∧ (stored call.answer call.address call.follows).isSome = true

/-- A probe without its timestamp. -/
def Probe.untimed : Probe → Probe
  | Probe.rows inRecovery _ rs rowsErr => Probe.rows inRecovery 0 rs rowsErr
  | p => p

/-- The topology does not change: what an address answers differs over time by the
timestamp only. -/
def World.unchanged (w : World) : Prop :=
  ∀ (n m : Nat) (address : String), (w n address).untimed = (w m address).untimed

/-- A finite replication tree: a node and the trees of its clients, in the order the
node reports them. -/
inductive Tree where
  | node (address : String) (children : List Tree)

/-- Address of the root of the tree. -/
def Tree.address : Tree → String
  | Tree.node a _ => a

/-- Trees of the clients of the root. -/
def Tree.children : Tree → List Tree
  | Tree.node _ cs => cs

mutual
/-- Number of nodes on the longest path from the root to a leaf. -/
def Tree.height : Tree → Nat
  | Tree.node _ cs => Tree.heightList cs + 1
/-- Largest height in a list of trees. -/
def Tree.heightList : List Tree → Nat
  | [] => 0
  | t :: ts => max (Tree.height t) (Tree.heightList ts)
end

mutual
/-- Every node below the root, as the pair of its parent's address and its own subtree. -/
def Tree.edges : Tree → List (String × Tree)
  | Tree.node a cs => Tree.edgesList a cs
/-- The nodes of a list of sibling trees whose parent is `parent`, with those below them. -/
def Tree.edgesList (parent : String) : List Tree → List (String × Tree)
  | [] => []
  | t :: ts => (parent, t) :: (Tree.edges t ++ Tree.edgesList parent ts)
end

/-- Addresses of all the nodes of the tree: the root, then every node below it. -/
def Tree.addresses (t : Tree) : List String :=
  t.address :: t.edges.map (fun e => e.2.address)

/-- The node at the root of `s` can be reached at all times, and answers `inRecovery` and
exactly the addresses of its children as clients. -/
def World.answersNode (w : World) (inRecovery : Bool) (s : Tree) : Prop :=
  ∀ n, ∃ now, w n s.address = Probe.success inRecovery now (s.children.map Tree.address)

/-- The world answers like the tree: the root is reachable and not in recovery, every
other node is reachable and in recovery, and each node reports exactly its children. -/
def World.serves (w : World) (t : Tree) : Prop :=
  w.answersNode false t ∧ ∀ e ∈ t.edges, w.answersNode true e.2

/-- The store holds for the root of `s` a record with the given Follows and the DBType
that the classification gives to a node of this kind. -/
def recorded (c : controller) (leader : String) (inRecovery : Bool) (s : Tree) : Prop :=
  ∃ r : server, GoMap.get c.servers s.address = some r ∧
    r.DBType = classify inRecovery (s.children.map Tree.address) ∧ r.Follows = leader

/-- What a walk with this fuel does on every tree it is deep enough for. -/
def treeWalked (w : World) (fuel : Nat) : Prop :=
  ∀ (s : Tree) (leader : String) (b : Bool) (st : Run),
    s.height ≤ fuel → s.addresses.Nodup → w.answersNode b s →
    (∀ e ∈ s.edges, w.answersNode true e.2) →
    (WalkServers w fuel s.address leader st).2 = WalkResult.returned none ∧
    (∀ k, k ∉ s.addresses →
      GoMap.get (WalkServers w fuel s.address leader st).1.c.servers k =
        GoMap.get st.c.servers k) ∧
    recorded (WalkServers w fuel s.address leader st).1.c leader b s ∧
    ∀ e ∈ s.edges, recorded (WalkServers w fuel s.address leader st).1.c e.1 true e.2

/-- Client edge of a topology whose probes all succeed: `b` is reported by `a`. -/
def clientEdge (clients : String → List String) (a b : String) : Prop := b ∈ clients a

/-- Every address that client edges lead to from `start` answers every probe, with the
clients that `clients` gives it. -/
def World.allSucceed (w : World) (clients : String → List String) (start : String) : Prop :=
  ∀ a, Relation.ReflTransGen (clientEdge clients) start a →
    ∀ n, ∃ (inRecovery : Bool) (now : Nat), w n a = Probe.success inRecovery now (clients a)

/-- Some cycle of client edges can be reached from `start`. -/
def cycleReachable (clients : String → List String) (start : String) : Prop :=
  ∃ a, Relation.ReflTransGen (clientEdge clients) start a ∧
    Relation.TransGen (clientEdge clients) a a

/-- The controller after the calls (newest first) are made one after the other on `c`. -/
def replay (calls : List Call) (c : controller) : controller :=
  calls.foldr (fun call c' => (NewServer c' call.answer call.address call.follows).1) c

/-- The calls of `NewServer` made between the state `st` and the later state `st'`. -/
def Run.since (st' st : Run) : List Call :=
  st'.trace.take (st'.trace.length - st.trace.length)

/-- Two calls on the same address with the same leader, answered the same but for the
timestamp. -/
def Call.sim (x y : Call) : Prop :=
  x.address = y.address ∧ x.follows = y.follows ∧ x.answer.untimed = y.answer.untimed

/-- DBType and Follows of a record. -/
def role (r : server) : String × String := (r.DBType, r.Follows)

/-- The record for `k` that the newest successful call on `k` among `calls` stored. -/
def written (k : String) : List Call → Option server
  | [] => none
  | call :: calls =>
      if call.address = k then
        match stored call.answer call.address call.follows with
        | some r => some r
        | none => written k calls
      else written k calls

/-- Two runs, from `st1` and from `st2`, have made calls that agree but for the
timestamps and stand at `sa` and `sb`. -/
def simRuns (st1 st2 sa sb : Run) : Prop :=
  ∃ xs ys : List Call,
    sa.trace = xs ++ st1.trace ∧ sa.c = replay xs st1.c ∧
    sb.trace = ys ++ st2.trace ∧ sb.c = replay ys st2.c ∧
    List.Forall₂ Call.sim xs ys

/-- Records of a controller are well formed: a known DBType, and the key as Address. -/
def wellFormed (c : controller) : Prop :=
  ∀ e ∈ c.servers,
    (e.2.DBType = "master" ∨ e.2.DBType = "relay" ∨ e.2.DBType = "replica") ∧ e.2.Address = e.1

/-- Every record's Follows is a key of the store, the record of `start` with the empty
Follows apart. -/
def followsKnown (start : String) (c : controller) : Prop :=
  ∀ (k : String) (r : server), GoMap.get c.servers k = some r →
    (GoMap.get c.servers r.Follows).isSome = true ∨ (k = start ∧ r.Follows = "")

/-! ## Concrete topologies -/

/-- The tree with the master "m", its clients "r" and "s", and the client "l" of "r". -/
def treeExample : Tree :=
  Tree.node "m" [Tree.node "r" [Tree.node "l" []], Tree.node "s" []]

/-- A world that answers like `treeExample`; the n-th call is made at time 100 + n. -/
def worldTree : World := fun n address =>
  if address = "m" then Probe.success false (100 + n) ["r", "s"]
  else if address = "r" then Probe.success true (100 + n) ["l"]
  else Probe.success true (100 + n) []

/-- Two servers that report each other as client: "a" reports "b" and "b" reports "a". -/
def clientsCycle (address : String) : List String :=
  if address = "a" then ["b"] else ["a"]

/-- A world in which every probe succeeds, with the clients of `clientsCycle`. -/
def worldCycle : World := fun n address => Probe.success true (100 + n) (clientsCycle address)

/-- The answer of a standby with the clients "x" and "y" at time 7 when the query on
`pg_stat_replication` fails after the row of "x": one row, then `rows.Err()` is set. -/
def probeClientsQueryBreaks : Probe :=
  Probe.rows true 7 [Except.ok "x"] (some "connection lost")

/-- A lone standby "s": in recovery, no clients; nothing else can be reached. -/
def worldLoneStandby : World := fun n address =>
  if address = "s" then Probe.success true (100 + n) []
  else Probe.openFails "connection refused"

/-- A master "m" that reports the clients "a" and "b": "a" cannot be reached, "b" is a
standby without clients. The n-th call is made at time 100 + n. -/
def worldBrokenSibling : World := fun n address =>
  if address = "m" then Probe.success false (100 + n) ["a", "b"]
  else if address = "b" then Probe.success true (100 + n) []
  else Probe.openFails "connection refused"

theorem GoMap.get_set_self {β : Type} (m : GoMap β) (k : String) (v : β) :
    GoMap.get (GoMap.set m k v) k = some v := by
  induction m with
  | nil => simp [GoMap.set, GoMap.get]
  | cons e m ih =>
      obtain ⟨k', v'⟩ := e
      by_cases h : k' = k
      · simp [GoMap.set, GoMap.get, h]
      · simp [GoMap.set, GoMap.get, h, ih]

theorem GoMap.get_set_ne {β : Type} (m : GoMap β) (k k0 : String) (v : β) (h : k0 ≠ k) :
    GoMap.get (GoMap.set m k v) k0 = GoMap.get m k0 := by
  induction m with
  | nil => simp [GoMap.set, GoMap.get, Ne.symm h]
  | cons e m ih =>
      obtain ⟨k', v'⟩ := e
      by_cases h' : k' = k
      · subst h'
        simp [GoMap.set, GoMap.get, Ne.symm h]
      · simp [GoMap.set, GoMap.get, h', ih]

theorem GoMap.get_set {β : Type} (m : GoMap β) (k k0 : String) (v : β) :
    GoMap.get (GoMap.set m k v) k0 = if k0 = k then some v else GoMap.get m k0 := by
  by_cases h : k0 = k
  · subst h; simp [GoMap.get_set_self]
  · simp [h, GoMap.get_set_ne m k k0 v h]

theorem GoMap.set_ne_nil {β : Type} (m : GoMap β) (k : String) (v : β) :
    GoMap.set m k v ≠ [] := by
  cases m with
  | nil => simp [GoMap.set]
  | cons e m =>
      obtain ⟨k', v'⟩ := e
      by_cases h : k' = k <;> simp [GoMap.set, h]

/-! ### `NewServer` -/

theorem scanRows_ok (now : Nat) (cs : List String) :
    ∀ (s : server) (fs : List String),
      ∃ s', scanRows now (cs.map Except.ok) s fs = Except.ok (s', fs ++ cs) ∧
        s'.DBType = s.DBType ∧ s'.Address = s.Address ∧ s'.Follows = s.Follows ∧
        s'.LastSeen = s.LastSeen ∧
        (cs = [] → s'.Clients = s.Clients) ∧
        (cs ≠ [] → 0 < lenClients s'.Clients) ∧
        (∀ k, clientsGet s'.Clients k = if k ∈ cs then some now else clientsGet s.Clients k) := by
  induction cs with
  | nil => intro s fs; exact ⟨s, by simp [scanRows]⟩
  | cons a cs ih =>
      intro s fs
      obtain ⟨s', h1, h2, h3, h4, h5, h6, h7, h8⟩ :=
        ih { s with Clients := some (GoMap.set (match s.Clients with | none => [] | some m => m) a now) }
          (fs ++ [a])
      refine ⟨s', ?_, h2, h3, h4, h5, by simp, ?_, ?_⟩
      · simp only [List.map_cons, scanRows, h1]
        simp
      · intro _
        by_cases hcs : cs = []
        · rw [h6 hcs]
          simp only [lenClients]
          exact List.length_pos.mpr (GoMap.set_ne_nil _ _ _)
        · exact h7 hcs
      · intro k
        rw [h8 k]
        by_cases hk : k ∈ cs
        · simp [hk]
        · by_cases hka : k = a
          · subst hka
            simp [clientsGet, GoMap.get_set_self]
          · simp only [hk, if_false, List.mem_cons, hka, or_self, clientsGet]
            rw [GoMap.get_set_ne _ _ _ _ hka]
            cases s.Clients <;> simp [clientsGet, GoMap.get]

theorem scanRows_error (now : Nat) (pre : List String) (err : String)
    (post : List (Except String String)) :
    ∀ (s : server) (fs : List String),
      scanRows now (pre.map Except.ok ++ Except.error err :: post) s fs = Except.error err := by
  induction pre with
  | nil => intro s fs; simp [scanRows]
  | cons a pre ih =>
      intro s fs
      rw [List.map_cons, List.cons_append, scanRows]
      exact ih _ _

/-- The record that a successful call of `NewServer` stores, and the list it returns. -/
theorem NewServer_success (address follows : String) (inRecovery : Bool) (now : Nat)
    (cs : List String) :
    ∃ r : server,
      (∀ c : controller, NewServer c (Probe.success inRecovery now cs) address follows =
        ({ servers := GoMap.set c.servers address r }, Except.ok cs)) ∧
      r.DBType = classify inRecovery cs ∧ r.Address = address ∧ r.Follows = follows ∧
      r.LastSeen = now ∧ (cs = [] → r.Clients = none) ∧
      (∀ k, clientsGet r.Clients k = if k ∈ cs then some now else none) ∧
      (cs ≠ [] → 0 < lenClients r.Clients) := by
  obtain ⟨s', h1, h2, h3, h4, h5, h6, h7, h8⟩ := scanRows_ok now cs
    { DBType := "", Address := address, Follows := follows, LastSeen := now, Clients := none } []
  simp only [List.nil_append] at h1
  have h8' : ∀ k, clientsGet s'.Clients k = if k ∈ cs then some now else none := by
    intro k; rw [h8 k]; simp [clientsGet]
  cases inRecovery with
  | false =>
      refine ⟨{ s' with DBType := "master" }, ?_, by simp [classify], h3, h4, h5, h6, h8', h7⟩
      intro c
      simp [NewServer, Probe.success, h1]
  | true =>
      by_cases hcs : cs = []
      · refine ⟨{ s' with DBType := "replica" }, ?_, by simp [classify, hcs], h3, h4, h5, h6, h8',
          h7⟩
        intro c
        have : lenClients s'.Clients = 0 := by rw [h6 hcs]; rfl
        simp [NewServer, Probe.success, h1, this]
      · refine ⟨{ s' with DBType := "relay" }, ?_, by simp [classify, hcs], h3, h4, h5,
          fun h => absurd h hcs, h8', h7⟩
        intro c
        have := h7 hcs
        simp [NewServer, Probe.success, h1, this]

theorem rows_cases (rows : List (Except String String)) :
    (∃ cs : List String, rows = cs.map Except.ok) ∨
    ∃ (pre : List String) (err : String) (post : List (Except String String)),
      rows = pre.map Except.ok ++ Except.error err :: post := by
  induction rows with
  | nil => exact Or.inl ⟨[], rfl⟩
  | cons x rows ih =>
      cases x with
      | error err => exact Or.inr ⟨[], err, rows, rfl⟩
      | ok a =>
          rcases ih with ⟨cs, h⟩ | ⟨pre, err, post, h⟩
          · exact Or.inl ⟨a :: cs, by simp [h]⟩
          · exact Or.inr ⟨a :: pre, err, post, by simp [h]⟩

theorem NewServer_rows_error (c : controller) (address follows : String) (inRecovery : Bool)
    (now : Nat) (pre : List String) (err : String) (post : List (Except String String))
    (rowsErr : Option String) :
    NewServer c (Probe.rows inRecovery now (pre.map Except.ok ++ Except.error err :: post)
      rowsErr) address follows = (c, Except.error err) := by
  simp only [NewServer, scanRows_error]

/-- What `rows.Err()` holds makes no difference to `NewServer`. -/
theorem NewServer_rowsErr (c : controller) (address follows : String) (inRecovery : Bool)
    (now : Nat) (rows : List (Except String String)) (rowsErr : Option String) :
    NewServer c (Probe.rows inRecovery now rows rowsErr) address follows =
      NewServer c (Probe.rows inRecovery now rows none) address follows := rfl

/-- Every answer either makes `NewServer` return an error and leave the controller as it
was, or is one whose rows all scan and makes it store one record, the same on every
controller. -/
theorem NewServer_cases_uniform (p : Probe) (address follows : String) :
    (∃ err, ∀ c : controller, NewServer c p address follows = (c, Except.error err)) ∨
    ∃ (inRecovery : Bool) (now : Nat) (cs : List String) (r : server),
      (∃ rowsErr, p = Probe.rows inRecovery now (cs.map Except.ok) rowsErr) ∧
      (∀ c : controller, NewServer c p address follows =
        ({ servers := GoMap.set c.servers address r }, Except.ok cs)) ∧
      r.DBType = classify inRecovery cs ∧ r.Address = address ∧ r.Follows = follows := by
  cases p with
  | openFails err => exact Or.inl ⟨err, fun _ => rfl⟩
  | recoveryFails err => exact Or.inl ⟨err, fun _ => rfl⟩
  | clientsFails err => exact Or.inl ⟨err, fun _ => rfl⟩
  | rows inRecovery now rows rowsErr =>
      rcases rows_cases rows with ⟨cs, h⟩ | ⟨pre, err, post, h⟩
      · subst h
        obtain ⟨r, h1, h2, h3, h4, _⟩ := NewServer_success address follows inRecovery now cs
        exact Or.inr ⟨inRecovery, now, cs, r, ⟨rowsErr, rfl⟩,
          fun c => (NewServer_rowsErr c address follows inRecovery now _ rowsErr).trans (h1 c),
          h2, h3, h4⟩
      · subst h
        exact Or.inl ⟨err, fun c =>
          NewServer_rows_error c address follows inRecovery now pre err post rowsErr⟩

theorem NewServer_cases (c : controller) (p : Probe) (address follows : String) :
    (∃ err, NewServer c p address follows = (c, Except.error err)) ∨
    ∃ (inRecovery : Bool) (now : Nat) (cs : List String) (r : server),
      (∃ rowsErr, p = Probe.rows inRecovery now (cs.map Except.ok) rowsErr) ∧
      NewServer c p address follows =
        ({ servers := GoMap.set c.servers address r }, Except.ok cs) ∧
      r.DBType = classify inRecovery cs ∧ r.Address = address ∧ r.Follows = follows := by
  rcases NewServer_cases_uniform p address follows with
    ⟨err, he⟩ | ⟨inRecovery, now, cs, r, hp, hok, h⟩
  · exact Or.inl ⟨err, he c⟩
  · exact Or.inr ⟨inRecovery, now, cs, r, hp, hok c, h⟩

/-- What `stored` is, next to what `NewServer` does. -/
theorem stored_cases (p : Probe) (address follows : String) :
    (stored p address follows = none ∧
      ∃ err, ∀ c : controller, NewServer c p address follows = (c, Except.error err)) ∨
    ∃ (inRecovery : Bool) (now : Nat) (cs : List String) (r : server),
      stored p address follows = some r ∧
      (∃ rowsErr, p = Probe.rows inRecovery now (cs.map Except.ok) rowsErr) ∧
      (∀ c : controller, NewServer c p address follows =
        ({ servers := GoMap.set c.servers address r }, Except.ok cs)) ∧
      r.DBType = classify inRecovery cs ∧ r.Address = address ∧ r.Follows = follows := by
  rcases NewServer_cases_uniform p address follows with
    ⟨err, he⟩ | ⟨inRecovery, now, cs, r, hp, hok, h⟩
  · refine Or.inl ⟨?_, err, he⟩
    simp only [stored, he]
  · refine Or.inr ⟨inRecovery, now, cs, r, ?_, hp, hok, h⟩
    simp only [stored, hok, GoMap.get_set_self]

theorem classify_mem (inRecovery : Bool) (cs : List String) :
    classify inRecovery cs = "master" ∨ classify inRecovery cs = "relay" ∨
      classify inRecovery cs = "replica" := by
  unfold classify
  split
  · exact Or.inl rfl
  · split
    · exact Or.inr (Or.inl rfl)
    · exact Or.inr (Or.inr rfl)

/-! ### Unfolding `WalkServers` -/

theorem WalkServers_error (w : World) (fuel : Nat) (address leader : String) (st : Run)
    (err : String)
    (h : NewServer st.c (w st.trace.length address) address leader = (st.c, Except.error err)) :
    WalkServers w (fuel + 1) address leader st =
      ({ c := st.c, trace := { address := address, follows := leader,
                               answer := w st.trace.length address } :: st.trace },
        WalkResult.returned (some err)) := by
  simp only [WalkServers, h]

theorem WalkServers_ok (w : World) (fuel : Nat) (address leader : String) (st : Run)
    (c' : controller) (followers : List String)
    (h : NewServer st.c (w st.trace.length address) address leader = (c', Except.ok followers)) :
    WalkServers w (fuel + 1) address leader st =
      walkFollowers (fun follower st' => WalkServers w fuel follower address st') followers
        { c := c', trace := { address := address, follows := leader,
                              answer := w st.trace.length address } :: st.trace } := by
  simp only [WalkServers, h]

theorem walkFollowers_cons_ok (walk : String → Run → Run × WalkResult) (f : String)
    (rest : List String) (st st' : Run) (h : walk f st = (st', WalkResult.returned none)) :
    walkFollowers walk (f :: rest) st = walkFollowers walk rest st' := by
  simp only [walkFollowers, h]

theorem walkFollowers_cons_stop (walk : String → Run → Run × WalkResult) (f : String)
    (rest : List String) (st st' : Run) (r : WalkResult) (h : walk f st = (st', r))
    (hr : r ≠ WalkResult.returned none) :
    walkFollowers walk (f :: rest) st = (st', r) := by
  cases r with
  | outOfFuel => simp only [walkFollowers, h]
  | returned e =>
      cases e with
      | none => exact absurd rfl hr
      | some e => simp only [walkFollowers, h]

/-- A property that every recursive call keeps is kept by the loop over the followers. -/
theorem walkFollowers_preserves (walk : String → Run → Run × WalkResult) (P : Run → Prop)
    (fs : List String) (h : ∀ f ∈ fs, ∀ st, P st → P (walk f st).1) :
    ∀ st, P st → P (walkFollowers walk fs st).1 := by
  induction fs with
  | nil => intro st h0; exact h0
  | cons f rest ih =>
      intro st h0
      have hf := h f (List.mem_cons_self _ _) st h0
      have ih' := ih (fun g hg => h g (List.mem_cons_of_mem _ hg))
      rcases hw : walk f st with ⟨st', r⟩
      rw [hw] at hf
      by_cases hr : r = WalkResult.returned none
      · subst hr
        rw [walkFollowers_cons_ok walk f rest st st' hw]
        exact ih' st' hf
      · rw [walkFollowers_cons_stop walk f rest st st' r hw hr]
        exact hf

/-- A property that every call of `NewServer` keeps, whatever it is called on, is kept
by a walk. -/
theorem WalkServers_preserves (w : World) (P : Run → Prop)
    (hcall : ∀ (st : Run) (address leader : String), P st →
      P { c := (NewServer st.c (w st.trace.length address) address leader).1,
          trace := { address := address, follows := leader,
                     answer := w st.trace.length address } :: st.trace }) :
    ∀ (fuel : Nat) (address leader : String) (st : Run),
      P st → P (WalkServers w fuel address leader st).1 := by
  intro fuel
  induction fuel with
  | zero => intro address leader st h; exact h
  | succ fuel ih =>
      intro address leader st h
      have hc := hcall st address leader h
      rcases NewServer_cases st.c (w st.trace.length address) address leader with
        ⟨err, he⟩ | ⟨inRecovery, now, cs, r, _, hok, _⟩
      · rw [WalkServers_error w fuel address leader st err he]
        rw [he] at hc
        exact hc
      · rw [WalkServers_ok w fuel address leader st _ cs hok]
        rw [hok] at hc
        exact walkFollowers_preserves _ P cs (fun f _ st' h' => ih f address st' h') _ hc

/-! ### Frame and invariants of the store -/

theorem GoMap.mem_set {β : Type} (m : GoMap β) (k : String) (v : β) (e : String × β)
    (h : e ∈ GoMap.set m k v) : e = (k, v) ∨ e ∈ m := by
  induction m with
  | nil => simpa [GoMap.set] using h
  | cons e' m ih =>
      obtain ⟨k', v'⟩ := e'
      by_cases hk : k' = k
      · simp only [GoMap.set, hk, if_true, List.mem_cons] at h
        rcases h with h | h
        · exact Or.inl h
        · exact Or.inr (List.mem_cons_of_mem _ h)
      · simp only [GoMap.set, hk, if_false, List.mem_cons] at h
        rcases h with h | h
        · exact Or.inr (h ▸ List.mem_cons_self _ _)
        · rcases ih h with h | h
          · exact Or.inl h
          · exact Or.inr (List.mem_cons_of_mem _ h)

theorem GoMap.mem_of_get {β : Type} (m : GoMap β) (k : String) (v : β)
    (h : GoMap.get m k = some v) : (k, v) ∈ m := by
  induction m with
  | nil => simp [GoMap.get] at h
  | cons e m ih =>
      obtain ⟨k', v'⟩ := e
      by_cases hk : k' = k
      · simp only [GoMap.get, hk, if_true, Option.some.injEq] at h
        subst hk; subst h
        exact List.mem_cons_self _ _
      · simp only [GoMap.get, hk, if_false] at h
        exact List.mem_cons_of_mem _ (ih h)

theorem NewServer_frame (c : controller) (p : Probe) (address follows k : String)
    (hk : k ≠ address) :
    GoMap.get (NewServer c p address follows).1.servers k = GoMap.get c.servers k := by
  rcases NewServer_cases c p address follows with ⟨err, he⟩ | ⟨_, _, cs, r, _, hok, _⟩
  · rw [he]
  · rw [hok]
    exact GoMap.get_set_ne _ _ _ _ hk

theorem NewServer_keeps_keys (c : controller) (p : Probe) (address follows k : String)
    (h : (GoMap.get c.servers k).isSome = true) :
    (GoMap.get (NewServer c p address follows).1.servers k).isSome = true := by
  by_cases hk : k = address
  · rcases NewServer_cases c p address follows with ⟨err, he⟩ | ⟨_, _, cs, r, _, hok, _⟩
    · rw [he]; exact h
    · rw [hok, hk]
      simp [GoMap.get_set_self]
  · rw [NewServer_frame c p address follows k hk]
    exact h

theorem WalkServers_keeps_keys (w : World) (fuel : Nat) (address leader : String) (st : Run)
    (k : String) (h : (GoMap.get st.c.servers k).isSome = true) :
    (GoMap.get (WalkServers w fuel address leader st).1.c.servers k).isSome = true :=
  WalkServers_preserves w (fun st' => (GoMap.get st'.c.servers k).isSome = true)
    (fun st' a l h' => NewServer_keeps_keys st'.c _ a l k h') fuel address leader st h

/-- The trace after a walk is the trace before it with the calls of the walk in front,
and the controller is the one these calls give. -/
theorem WalkServers_trace (w : World) (fuel : Nat) (address leader : String) (st : Run) :
    ∃ calls : List Call,
      (WalkServers w fuel address leader st).1.trace = calls ++ st.trace ∧
      (WalkServers w fuel address leader st).1.c = replay calls st.c :=
  WalkServers_preserves w
    (fun st' => ∃ calls : List Call, st'.trace = calls ++ st.trace ∧ st'.c = replay calls st.c)
    (fun st' a l h' => by
      obtain ⟨calls, h1, h2⟩ := h'
      refine ⟨{ address := a, follows := l, answer := w st'.trace.length a } :: calls, ?_, ?_⟩
      · simp [h1]
      · simp [replay, h2])
    fuel address leader st ⟨[], rfl, rfl⟩

theorem Run.since_eq (st' st : Run) (calls : List Call) (h : st'.trace = calls ++ st.trace) :
    Run.since st' st = calls := by
  simp [Run.since, h]

theorem replay_unwritten (k : String) (calls : List Call) (c : controller)
    (h : ∀ call ∈ calls, ¬ call.wrote k) :
    GoMap.get (replay calls c).servers k = GoMap.get c.servers k := by
  induction calls with
  | nil => rfl
  | cons call calls ih =>
      have ih' := ih (fun x hx => h x (List.mem_cons_of_mem _ hx))
      have hc := h call (List.mem_cons_self _ _)
      show GoMap.get (NewServer (replay calls c) call.answer call.address call.follows).1.servers k
        = GoMap.get c.servers k
      rcases stored_cases call.answer call.address call.follows with
        ⟨_, err, he⟩ | ⟨_, _, cs, r, hs, _, hok, _⟩
      · rw [he]; exact ih'
      · have hne : k ≠ call.address := by
          intro hk
          exact hc ⟨hk.symm, by simp [hs]⟩
        rw [NewServer_frame _ _ _ _ k hne]
        exact ih'

theorem NewServer_wellFormed (c : controller) (p : Probe) (address follows : String)
    (h : wellFormed c) : wellFormed (NewServer c p address follows).1 := by
  rcases NewServer_cases c p address follows with
    ⟨err, he⟩ | ⟨inRecovery, _, cs, r, _, hok, h1, h2, _⟩
  · rw [he]; exact h
  · rw [hok]
    intro e he
    rcases GoMap.mem_set _ _ _ _ he with he | he
    · subst he
      exact ⟨h1 ▸ classify_mem inRecovery cs, h2⟩
    · exact h e he

theorem Reachable_wellFormed (c : controller) (h : Reachable c) : wellFormed c := by
  induction h with
  | init => intro e he; simp [NewController] at he
  | newServer c p address follows _ ih => exact NewServer_wellFormed c p address follows ih
  | walk w fuel address leader c trace _ ih =>
      exact WalkServers_preserves w (fun st => wellFormed st.c)
        (fun st a l h' => NewServer_wellFormed st.c _ a l h') fuel address leader
        { c := c, trace := trace } ih

theorem renderSVGNodes_isSome (entries : List (String × server))
    (h : ∀ e ∈ entries,
      e.2.DBType = "master" ∨ e.2.DBType = "relay" ∨ e.2.DBType = "replica") :
    ∀ acc : svgNodes, (renderSVGNodes entries acc).isSome = true := by
  induction entries with
  | nil => intro acc; rfl
  | cons e entries ih =>
      intro acc
      obtain ⟨name, val⟩ := e
      have ih' := ih (fun x hx => h x (List.mem_cons_of_mem _ hx))
      rcases h (name, val) (List.mem_cons_self _ _) with hm | hm | hm <;>
        simp only at hm <;>
        simp [renderSVGNodes, renderSVGNode, hm, ih']

/-! ### The loop over the followers -/

theorem GoMap.isSome_get_set {β : Type} (m : GoMap β) (k x : String) (v : β)
    (h : (GoMap.get m x).isSome = true) : (GoMap.get (GoMap.set m k v) x).isSome = true := by
  rw [GoMap.get_set]
  split
  · rfl
  · exact h

theorem followsKnown_set (start address leader : String) (c : controller) (r : server)
    (hinv : followsKnown start c) (hr : r.Follows = leader)
    (hlead : (GoMap.get c.servers leader).isSome = true ∨ (address = start ∧ leader = "")) :
    followsKnown start { servers := GoMap.set c.servers address r } := by
  intro k r' hget
  simp only at hget ⊢
  rw [GoMap.get_set] at hget
  by_cases hk : k = address
  · rw [if_pos hk] at hget
    have hrr : r = r' := Option.some.inj hget
    subst hrr
    rcases hlead with hl | ⟨ha, hl⟩
    · exact Or.inl (GoMap.isSome_get_set _ _ _ _ (hr ▸ hl))
    · exact Or.inr ⟨hk.trans ha, hr.trans hl⟩
  · rw [if_neg hk] at hget
    rcases hinv k r' hget with h | h
    · exact Or.inl (GoMap.isSome_get_set _ _ _ _ h)
    · exact Or.inr h

theorem WalkServers_followsKnown (w : World) (start : String) :
    ∀ (fuel : Nat) (address leader : String) (st : Run),
      followsKnown start st.c →
      ((GoMap.get st.c.servers leader).isSome = true ∨ (address = start ∧ leader = "")) →
      followsKnown start (WalkServers w fuel address leader st).1.c := by
  intro fuel
  induction fuel with
  | zero => intro address leader st hinv _; exact hinv
  | succ fuel ih =>
      intro address leader st hinv hlead
      rcases NewServer_cases st.c (w st.trace.length address) address leader with
        ⟨err, he⟩ | ⟨_, _, cs, r, _, hok, _, _, hf⟩
      · rw [WalkServers_error w fuel address leader st err he]
        exact hinv
      · rw [WalkServers_ok w fuel address leader st _ cs hok]
        refine (walkFollowers_preserves _
          (fun st' => followsKnown start st'.c ∧ (GoMap.get st'.c.servers address).isSome = true)
          cs ?_ _ ?_).1
        · intro f _ st' h
          exact ⟨ih f address st' h.1 (Or.inl h.2),
            WalkServers_keeps_keys w fuel f address st' address h.2⟩
        · refine ⟨followsKnown_set start address leader st.c r hinv hf hlead, ?_⟩
          simp [GoMap.get_set_self]

/-! ### Walking a tree -/

theorem Tree.height_node (a : String) (cs : List Tree) :
    (Tree.node a cs).height = Tree.heightList cs + 1 := by
  simp [Tree.height]

theorem Tree.heightList_cons (t : Tree) (ts : List Tree) :
    Tree.heightList (t :: ts) = max t.height (Tree.heightList ts) := by
  simp [Tree.heightList]

theorem Tree.edgesList_cons (p : String) (t : Tree) (ts : List Tree) :
    Tree.edgesList p (t :: ts) = (p, t) :: (t.edges ++ Tree.edgesList p ts) := by
  simp [Tree.edgesList]

theorem Tree.addresses_edgesList_cons (p : String) (t : Tree) (ts : List Tree) :
    (Tree.edgesList p (t :: ts)).map (fun e => e.2.address) =
      t.addresses ++ (Tree.edgesList p ts).map (fun e => e.2.address) := by
  simp [Tree.edgesList_cons, Tree.addresses]

theorem walk_forest (w : World) (fuel : Nat) (ih : treeWalked w fuel) (p : String) :
    ∀ (ts : List Tree) (st : Run),
      Tree.heightList ts ≤ fuel →
      ((Tree.edgesList p ts).map (fun e => e.2.address)).Nodup →
      (∀ e ∈ Tree.edgesList p ts, w.answersNode true e.2) →
      (walkFollowers (fun follower st' => WalkServers w fuel follower p st')
        (ts.map Tree.address) st).2 = WalkResult.returned none ∧
      (∀ k, k ∉ (Tree.edgesList p ts).map (fun e => e.2.address) →
        GoMap.get (walkFollowers (fun follower st' => WalkServers w fuel follower p st')
          (ts.map Tree.address) st).1.c.servers k = GoMap.get st.c.servers k) ∧
      ∀ e ∈ Tree.edgesList p ts,
        recorded (walkFollowers (fun follower st' => WalkServers w fuel follower p st')
          (ts.map Tree.address) st).1.c e.1 true e.2 := by
  intro ts
  induction ts with
  | nil =>
      intro st _ _ _
      refine ⟨rfl, fun k _ => rfl, ?_⟩
      intro e he
      simp [Tree.edgesList] at he
  | cons t ts iht =>
      intro st hh hnd hans
      rw [Tree.heightList_cons] at hh
      rw [Tree.addresses_edgesList_cons, List.nodup_append] at hnd
      obtain ⟨hnd1, hnd2, hdisj⟩ := hnd
      have hans_t : w.answersNode true t :=
        hans (p, t) (by rw [Tree.edgesList_cons]; exact List.mem_cons_self _ _)
      have hans_te : ∀ e ∈ t.edges, w.answersNode true e.2 := fun e he =>
        hans e (by
          rw [Tree.edgesList_cons]
          exact List.mem_cons_of_mem _ (List.mem_append_left _ he))
      have hans_ts : ∀ e ∈ Tree.edgesList p ts, w.answersNode true e.2 := fun e he =>
        hans e (by
          rw [Tree.edgesList_cons]
          exact List.mem_cons_of_mem _ (List.mem_append_right _ he))
      obtain ⟨h1, h2, h3, h4⟩ :=
        ih t p true st (le_trans (le_max_left _ _) hh) hnd1 hans_t hans_te
      rcases hw : WalkServers w fuel t.address p st with ⟨st1, r1⟩
      rw [hw] at h1 h2 h3 h4
      simp only at h1 h2 h3 h4
      subst h1
      obtain ⟨g1, g2, g3⟩ := iht st1 (le_trans (le_max_right _ _) hh) hnd2 hans_ts
      rw [List.map_cons, walkFollowers_cons_ok _ t.address (ts.map Tree.address) st st1 hw]
      refine ⟨g1, ?_, ?_⟩
      · intro k hk
        rw [Tree.addresses_edgesList_cons, List.mem_append, not_or] at hk
        rw [g2 k hk.2, h2 k hk.1]
      · intro e he
        rw [Tree.edgesList_cons, List.mem_cons, List.mem_append] at he
        have keep : ∀ s : Tree, s.address ∈ t.addresses →
            recorded st1.c e.1 true s →
            recorded (walkFollowers (fun follower st' => WalkServers w fuel follower p st')
              (ts.map Tree.address) st1).1.c e.1 true s := by
          intro s hs hrec
          obtain ⟨r, hr1, hr2⟩ := hrec
          refine ⟨r, ?_, hr2⟩
          rw [g2 s.address (fun hmem => hdisj hs hmem)]
          exact hr1
        rcases he with he | he | he
        · subst he
          exact keep t (List.mem_cons_self _ _) h3
        · exact keep e.2 (List.mem_cons_of_mem _ (List.mem_map_of_mem _ he)) (h4 e he)
        · exact g3 e he

theorem walk_tree (w : World) : ∀ fuel : Nat, treeWalked w fuel := by
  intro fuel
  induction fuel with
  | zero =>
      intro s leader b st hh _ _ _
      cases s with
      | node a cs => rw [Tree.height_node] at hh; omega
  | succ fuel ih =>
      intro s leader b st hh hnd hroot hans
      cases s with
      | node a cs =>
          rw [Tree.height_node] at hh
          have hnd' : (a :: (Tree.edgesList a cs).map (fun e => e.2.address)).Nodup := hnd
          rw [List.nodup_cons] at hnd'
          obtain ⟨now, hnow⟩ := hroot st.trace.length
          obtain ⟨r, hr1, hr2, _, hr4, _⟩ :=
            NewServer_success a leader b now (cs.map Tree.address)
          have hprobe : NewServer st.c (w st.trace.length a) a leader =
              ({ servers := GoMap.set st.c.servers a r }, Except.ok (cs.map Tree.address)) := by
            have : w st.trace.length a = Probe.success b now (cs.map Tree.address) := hnow
            rw [this]
            exact hr1 st.c
          obtain ⟨g1, g2, g3⟩ := walk_forest w fuel ih a cs
            { c := { servers := GoMap.set st.c.servers a r },
              trace := { address := a, follows := leader,
                         answer := w st.trace.length a } :: st.trace }
            (by omega) hnd'.2 hans
          have hwalk := WalkServers_ok w fuel a leader st _ _ hprobe
          simp only [Tree.address]
          rw [hwalk]
          refine ⟨g1, ?_, ?_, g3⟩
          · intro k hk
            have hk' : k ∉ a :: (Tree.edgesList a cs).map (fun e => e.2.address) := hk
            rw [List.mem_cons, not_or] at hk'
            rw [g2 k hk'.2]
            exact GoMap.get_set_ne _ _ _ _ hk'.1
          · refine ⟨r, ?_, hr2, hr4⟩
            simp only [Tree.address]
            rw [g2 a hnd'.1]
            exact GoMap.get_set_self _ _ _

/-! ### Walking a cycle -/

theorem walkFollowers_result (walk : String → Run → Run × WalkResult) (Q : WalkResult → Prop)
    (fs : List String) (h : ∀ f ∈ fs, ∀ st, Q (walk f st).2) (h0 : Q (WalkResult.returned none)) :
    ∀ st, Q (walkFollowers walk fs st).2 := by
  induction fs with
  | nil => intro st; exact h0
  | cons f rest ih =>
      intro st
      have hf := h f (List.mem_cons_self _ _) st
      rcases hw : walk f st with ⟨st', r⟩
      rw [hw] at hf
      by_cases hr : r = WalkResult.returned none
      · subst hr
        rw [walkFollowers_cons_ok walk f rest st st' hw]
        exact ih (fun g hg => h g (List.mem_cons_of_mem _ hg)) st'
      · rw [walkFollowers_cons_stop walk f rest st st' r hw hr]
        exact hf

theorem walkFollowers_outOfFuel (walk : String → Run → Run × WalkResult) (f : String)
    (hf : ∀ st, (walk f st).2 = WalkResult.outOfFuel) :
    ∀ (fs : List String), f ∈ fs →
      (∀ g ∈ fs, ∀ st,
        (walk g st).2 = WalkResult.returned none ∨ (walk g st).2 = WalkResult.outOfFuel) →
      ∀ st, (walkFollowers walk fs st).2 = WalkResult.outOfFuel := by
  intro fs
  induction fs with
  | nil => intro hmem; simp at hmem
  | cons g rest ih =>
      intro hmem hall st
      rcases hw : walk g st with ⟨st', r⟩
      by_cases hr : r = WalkResult.returned none
      · subst hr
        rw [walkFollowers_cons_ok walk g rest st st' hw]
        rcases List.mem_cons.mp hmem with hfg | hfr
        · have := hf st
          rw [hfg, hw] at this
          simp at this
        · exact ih hfr (fun x hx => hall x (List.mem_cons_of_mem _ hx)) st'
      · rw [walkFollowers_cons_stop walk g rest st st' r hw hr]
        have := hall g (List.mem_cons_self _ _) st
        rw [hw] at this
        rcases this with h | h
        · exact absurd h hr
        · exact h

theorem World.allSucceed_follower (w : World) (clients : String → List String)
    (address f : String) (h : w.allSucceed clients address) (hf : f ∈ clients address) :
    w.allSucceed clients f :=
  fun a ha n => h a (Relation.ReflTransGen.head hf ha) n

theorem WalkServers_ok_of_allSucceed (w : World) (clients : String → List String)
    (fuel : Nat) (address leader : String) (st : Run) (h : w.allSucceed clients address) :
    ∃ c', WalkServers w (fuel + 1) address leader st =
      walkFollowers (fun follower st' => WalkServers w fuel follower address st')
        (clients address)
        { c := c', trace := { address := address, follows := leader,
                              answer := w st.trace.length address } :: st.trace } := by
  obtain ⟨inRecovery, now, hnow⟩ := h address Relation.ReflTransGen.refl st.trace.length
  obtain ⟨r, hr, _⟩ := NewServer_success address leader inRecovery now (clients address)
  refine ⟨{ servers := GoMap.set st.c.servers address r }, ?_⟩
  apply WalkServers_ok
  rw [hnow]
  exact hr st.c

theorem WalkServers_no_error (w : World) (clients : String → List String) :
    ∀ (fuel : Nat) (address leader : String) (st : Run), w.allSucceed clients address →
      (WalkServers w fuel address leader st).2 = WalkResult.returned none ∨
      (WalkServers w fuel address leader st).2 = WalkResult.outOfFuel := by
  intro fuel
  induction fuel with
  | zero => intro address leader st _; exact Or.inr rfl
  | succ fuel ih =>
      intro address leader st h
      obtain ⟨c', hc⟩ := WalkServers_ok_of_allSucceed w clients fuel address leader st h
      rw [hc]
      exact walkFollowers_result _
        (fun r => r = WalkResult.returned none ∨ r = WalkResult.outOfFuel) (clients address)
        (fun f hf st' =>
          ih f address st' (World.allSucceed_follower w clients address f h hf))
        (Or.inl rfl) _

theorem cycleReachable_follower (clients : String → List String) (address : String)
    (h : cycleReachable clients address) :
    ∃ f ∈ clients address, cycleReachable clients f := by
  obtain ⟨a, hreach, hcyc⟩ := h
  rcases Relation.ReflTransGen.cases_head hreach with heq | ⟨f, hf, hfa⟩
  · subst heq
    obtain ⟨f, hf, hfa⟩ := Relation.TransGen.head'_iff.mp hcyc
    exact ⟨f, hf, address, hfa, hcyc⟩
  · exact ⟨f, hf, a, hfa, hcyc⟩

theorem WalkServers_diverges (w : World) (clients : String → List String) :
    ∀ (fuel : Nat) (address leader : String) (st : Run), w.allSucceed clients address →
      cycleReachable clients address →
      (WalkServers w fuel address leader st).2 = WalkResult.outOfFuel := by
  intro fuel
  induction fuel with
  | zero => intro address leader st _ _; rfl
  | succ fuel ih =>
      intro address leader st h hcyc
      obtain ⟨c', hc⟩ := WalkServers_ok_of_allSucceed w clients fuel address leader st h
      obtain ⟨f, hf, hfc⟩ := cycleReachable_follower clients address hcyc
      rw [hc]
      exact walkFollowers_outOfFuel _ f
        (fun st' => ih f address st' (World.allSucceed_follower w clients address f h hf) hfc)
        (clients address) hf
        (fun g hg st' => WalkServers_no_error w clients fuel g address st'
          (World.allSucceed_follower w clients address g h hg)) _

/-! ### Two walks of an unchanged topology -/

theorem NewServer_sim (p q : Probe) (address follows : String) (h : p.untimed = q.untimed) :
    (∃ err, (∀ c : controller, NewServer c p address follows = (c, Except.error err)) ∧
      (∀ c : controller, NewServer c q address follows = (c, Except.error err)) ∧
      stored p address follows = none ∧ stored q address follows = none) ∨
    ∃ (cs : List String) (r1 r2 : server),
      (∀ c : controller, NewServer c p address follows =
        ({ servers := GoMap.set c.servers address r1 }, Except.ok cs)) ∧
      (∀ c : controller, NewServer c q address follows =
        ({ servers := GoMap.set c.servers address r2 }, Except.ok cs)) ∧
      stored p address follows = some r1 ∧ stored q address follows = some r2 ∧
      role r1 = role r2 := by
  cases p with
  | openFails e =>
      cases q <;> simp only [Probe.untimed, Probe.openFails.injEq, reduceCtorEq] at h
      subst h
      exact Or.inl ⟨e, fun _ => rfl, fun _ => rfl, rfl, rfl⟩
  | recoveryFails e =>
      cases q <;> simp only [Probe.untimed, Probe.recoveryFails.injEq, reduceCtorEq] at h
      subst h
      exact Or.inl ⟨e, fun _ => rfl, fun _ => rfl, rfl, rfl⟩
  | clientsFails e =>
      cases q <;> simp only [Probe.untimed, Probe.clientsFails.injEq, reduceCtorEq] at h
      subst h
      exact Or.inl ⟨e, fun _ => rfl, fun _ => rfl, rfl, rfl⟩
  | rows b n rs e =>
      cases q with
      | openFails e => simp [Probe.untimed] at h
      | recoveryFails e => simp [Probe.untimed] at h
      | clientsFails e => simp [Probe.untimed] at h
      | rows b' m rs' e' =>
          simp only [Probe.untimed, Probe.rows.injEq, true_and] at h
          obtain ⟨hb, hrs, he⟩ := h
          subst hb; subst hrs; subst he
          rcases rows_cases rs with ⟨cs, hcs⟩ | ⟨pre, err, post, hrs⟩
          · subst hcs
            obtain ⟨r1, h1, h1d, _, h1f, _⟩ := NewServer_success address follows b n cs
            obtain ⟨r2, h2, h2d, _, h2f, _⟩ := NewServer_success address follows b m cs
            have g1 : ∀ c : controller,
                NewServer c (Probe.rows b n (cs.map Except.ok) e) address follows =
                  ({ servers := GoMap.set c.servers address r1 }, Except.ok cs) :=
              fun c => (NewServer_rowsErr c address follows b n _ e).trans (h1 c)
            have g2 : ∀ c : controller,
                NewServer c (Probe.rows b m (cs.map Except.ok) e) address follows =
                  ({ servers := GoMap.set c.servers address r2 }, Except.ok cs) :=
              fun c => (NewServer_rowsErr c address follows b m _ e).trans (h2 c)
            refine Or.inr ⟨cs, r1, r2, g1, g2, ?_, ?_, ?_⟩
            · simp only [stored, g1 NewController, GoMap.get_set_self]
            · simp only [stored, g2 NewController, GoMap.get_set_self]
            · simp only [role, h1d, h2d, h1f, h2f]
          · subst hrs
            refine Or.inl ⟨err,
              fun c => NewServer_rows_error c address follows b n pre err post e,
              fun c => NewServer_rows_error c address follows b m pre err post e, ?_, ?_⟩
            · simp only [stored, NewServer_rows_error]
            · simp only [stored, NewServer_rows_error]

theorem replay_get (k : String) (calls : List Call) (c : controller) :
    GoMap.get (replay calls c).servers k =
      match written k calls with
      | some r => some r
      | none => GoMap.get c.servers k := by
  induction calls with
  | nil => rfl
  | cons call calls ih =>
      show GoMap.get (NewServer (replay calls c) call.answer call.address call.follows).1.servers k
        = _
      rcases stored_cases call.answer call.address call.follows with
        ⟨hs, err, he⟩ | ⟨_, _, cs, r, hs, _, hok, _⟩
      · rw [he, ih]
        by_cases hk : call.address = k
        · subst hk
          simp [written, hs]
        · simp [written, hk]
      · rw [hok]
        simp only
        rw [GoMap.get_set]
        by_cases hk : call.address = k
        · subst hk
          simp [written, hs]
        · have hk' : ¬ k = call.address := fun h => hk h.symm
          simp only [written, hk, hk', if_false]
          exact ih

theorem written_sim (k : String) (xs ys : List Call) (h : List.Forall₂ Call.sim xs ys) :
    (written k xs).map role = (written k ys).map role := by
  induction h with
  | nil => rfl
  | @cons x y xs ys hxy _ ih =>
      obtain ⟨xa, xf, xp⟩ := x
      obtain ⟨ya, yf, yp⟩ := y
      obtain ⟨ha, hf, hp⟩ := hxy
      simp only at ha hf hp
      subst ha; subst hf
      by_cases hk : xa = k
      · subst hk
        rcases NewServer_sim xp yp xa xf hp with
          ⟨_, _, _, h1, h2⟩ | ⟨_, r1, r2, _, _, h1, h2, hr⟩
        · simp only [written, if_true, h1, h2]
          exact ih
        · simp only [written, if_true, h1, h2, Option.map_some', hr]
      · simp only [written, hk, if_false]
        exact ih

theorem walkFollowers_rel (walk1 walk2 : String → Run → Run × WalkResult)
    (R : Run → Run → Prop) (fs : List String)
    (h : ∀ f ∈ fs, ∀ sa sb, R sa sb →
      (walk1 f sa).2 = (walk2 f sb).2 ∧ R (walk1 f sa).1 (walk2 f sb).1) :
    ∀ sa sb, R sa sb →
      (walkFollowers walk1 fs sa).2 = (walkFollowers walk2 fs sb).2 ∧
      R (walkFollowers walk1 fs sa).1 (walkFollowers walk2 fs sb).1 := by
  induction fs with
  | nil => intro sa sb hR; exact ⟨rfl, hR⟩
  | cons f rest ih =>
      intro sa sb hR
      have hf := h f (List.mem_cons_self _ _) sa sb hR
      rcases hw1 : walk1 f sa with ⟨sa', r1⟩
      rcases hw2 : walk2 f sb with ⟨sb', r2⟩
      rw [hw1, hw2] at hf
      obtain ⟨hr, hR'⟩ := hf
      simp only at hr hR'
      subst hr
      by_cases hr : r1 = WalkResult.returned none
      · subst hr
        rw [walkFollowers_cons_ok walk1 f rest sa sa' hw1,
          walkFollowers_cons_ok walk2 f rest sb sb' hw2]
        exact ih (fun g hg => h g (List.mem_cons_of_mem _ hg)) sa' sb' hR'
      · rw [walkFollowers_cons_stop walk1 f rest sa sa' r1 hw1 hr,
          walkFollowers_cons_stop walk2 f rest sb sb' r1 hw2 hr]
        exact ⟨rfl, hR'⟩

theorem simRuns_call (st1 st2 sa sb : Run) (x y : Call) (h : simRuns st1 st2 sa sb)
    (hxy : Call.sim x y) :
    simRuns st1 st2
      { c := (NewServer sa.c x.answer x.address x.follows).1, trace := x :: sa.trace }
      { c := (NewServer sb.c y.answer y.address y.follows).1, trace := y :: sb.trace } := by
  obtain ⟨xs, ys, h1, h2, h3, h4, h5⟩ := h
  refine ⟨x :: xs, y :: ys, ?_, ?_, ?_, ?_, List.Forall₂.cons hxy h5⟩
  · simp [h1]
  · simp [replay, h2]
  · simp [h3]
  · simp [replay, h4]

theorem WalkServers_sim (w : World) (hw : w.unchanged) (st1 st2 : Run) :
    ∀ (fuel : Nat) (address leader : String) (sa sb : Run), simRuns st1 st2 sa sb →
      (WalkServers w fuel address leader sa).2 = (WalkServers w fuel address leader sb).2 ∧
      simRuns st1 st2 (WalkServers w fuel address leader sa).1
        (WalkServers w fuel address leader sb).1 := by
  intro fuel
  induction fuel with
  | zero => intro address leader sa sb h; exact ⟨rfl, h⟩
  | succ fuel ih =>
      intro address leader sa sb h
      have hp := hw sa.trace.length sb.trace.length address
      have hcall := simRuns_call st1 st2 sa sb
        { address := address, follows := leader, answer := w sa.trace.length address }
        { address := address, follows := leader, answer := w sb.trace.length address }
        h ⟨rfl, rfl, hp⟩
      simp only at hcall
      rcases NewServer_sim _ _ address leader hp with
        ⟨err, he1, he2, _⟩ | ⟨cs, r1, r2, hok1, hok2, _⟩
      · rw [WalkServers_error w fuel address leader sa err (he1 sa.c),
          WalkServers_error w fuel address leader sb err (he2 sb.c)]
        rw [he1 sa.c, he2 sb.c] at hcall
        exact ⟨rfl, hcall⟩
      · rw [WalkServers_ok w fuel address leader sa _ cs (hok1 sa.c),
          WalkServers_ok w fuel address leader sb _ cs (hok2 sb.c)]
        rw [hok1 sa.c, hok2 sb.c] at hcall
        exact walkFollowers_rel _ _ (simRuns st1 st2) cs
          (fun f _ sa' sb' h' => ih f address sa' sb' h') _ _ hcall

/-! ### Claims about `NewServer` -/

/-- C1: for every address and every successful probe answer (inRecovery, clients), the
record that `NewServer` stores has DBType "master" if inRecovery is false (whatever the
clients), "relay" if inRecovery is true and at least one client row was returned, and
"replica" if inRecovery is true and no client row was returned; no other DBType is stored. -/
theorem NewServer_classifies (c : controller) (address follows : String) (inRecovery : Bool)
    (now : Nat) (cs : List String) :
    ∃ r : server,
      GoMap.get (NewServer c (Probe.success inRecovery now cs) address follows).1.servers address
        = some r ∧
      r.DBType =
        (if inRecovery = false then "master" else if cs ≠ [] then "relay" else "replica") ∧
      (r.DBType = "master" ∨ r.DBType = "relay" ∨ r.DBType = "replica") := by
  obtain ⟨r, h1, h2, _⟩ := NewServer_success address follows inRecovery now cs
  refine ⟨r, ?_, h2, ?_⟩
  · rw [h1 c]
    exact GoMap.get_set_self _ _ _
  · rw [h2]
    exact classify_mem inRecovery cs

/-- C2: for every address, upstream and successful probe answer with client rows `cs`
observed at time `now`, `NewServer(address, upstream)` returns exactly `cs` and stores under
the key `address` a record `r` with Address = address, Follows = upstream, LastSeen = now and
a Clients map whose keys are exactly the addresses in `cs`, each mapped to `now` (Clients is
the nil map exactly when `cs` is empty); `r` is the same whatever the controller held. -/
theorem NewServer_record (address upstream : String) (inRecovery : Bool) (now : Nat)
    (cs : List String) :
    ∃ r : server,
      (∀ c : controller,
        (NewServer c (Probe.success inRecovery now cs) address upstream).2 = Except.ok cs ∧
        GoMap.get (NewServer c (Probe.success inRecovery now cs) address upstream).1.servers
          address = some r) ∧
      r.Address = address ∧ r.Follows = upstream ∧ r.LastSeen = now ∧
      (∀ k, clientsGet r.Clients k = if k ∈ cs then some now else none) ∧
      (r.Clients = none ↔ cs = []) := by
  obtain ⟨r, h1, _, h3, h4, h5, h6, h7, h8⟩ := NewServer_success address upstream inRecovery now cs
  refine ⟨r, ?_, h3, h4, h5, h7, ?_, h6⟩
  · intro c
    rw [h1 c]
    exact ⟨rfl, GoMap.get_set_self _ _ _⟩
  · intro hnone
    by_contra hcs
    have := h8 hcs
    rw [hnone] at this
    simp [lenClients] at this

/-- The failures that `NewServer` reports: when `sql.Open` fails, the recovery query fails,
`db.Query` on the replication clients returns an error, or the scan of a client row fails,
`NewServer` returns the error and leaves the controller exactly as it was. -/
theorem NewServer_reported_failure (c : controller) (address follows : String) :
    (∀ err, NewServer c (Probe.openFails err) address follows = (c, Except.error err)) ∧
    (∀ err, NewServer c (Probe.recoveryFails err) address follows = (c, Except.error err)) ∧
    (∀ err, NewServer c (Probe.clientsFails err) address follows = (c, Except.error err)) ∧
    (∀ (inRecovery : Bool) (now : Nat) (pre : List String) (err : String)
        (post : List (Except String String)) (rowsErr : Option String),
      NewServer c (Probe.rows inRecovery now (pre.map Except.ok ++ Except.error err :: post)
        rowsErr) address follows = (c, Except.error err)) :=
  ⟨fun _ => rfl, fun _ => rfl, fun _ => rfl,
    fun inRecovery now pre err post rowsErr =>
      NewServer_rows_error c address follows inRecovery now pre err post rowsErr⟩

/-- C3, the code at the failing input: the standby "s" has the clients "x" and "y", and
the replication-clients query fails once the row of "x" was read (`rows.Next()` is false
and `rows.Err()` holds the error). `NewServer("s", "m")` on the empty store returns the
list ["x"] with a nil error, and the store, which had no record for "s", has one, with
"x" as only client. -/
theorem NewServer_rows_err_unreported :
    GoMap.get NewController.servers "s" = none ∧
    (NewServer NewController probeClientsQueryBreaks "s" "m").2 = Except.ok ["x"] ∧
    GoMap.get (NewServer NewController probeClientsQueryBreaks "s" "m").1.servers "s" =
      some { DBType := "relay", Address := "s", Follows := "m", LastSeen := 7,
             Clients := some [("x", 7)] } := by
  refine ⟨by decide, by decide, by decide⟩

/-! ### Claims about the store -/

/-- C8: a call `NewServer(address, upstream)` leaves the record of every key other than
`address` unchanged; consequently `WalkServers` never removes a key, and the record of an
address that no call of the walk probes successfully is, after the walk, the record that
was in the store before it. -/
theorem NewServer_WalkServers_frame :
    (∀ (c : controller) (p : Probe) (address upstream k : String), k ≠ address →
      GoMap.get (NewServer c p address upstream).1.servers k = GoMap.get c.servers k) ∧
    (∀ (w : World) (fuel : Nat) (address leader : String) (st : Run) (k : String),
      (GoMap.get st.c.servers k).isSome = true →
      (GoMap.get (WalkServers w fuel address leader st).1.c.servers k).isSome = true) ∧
    (∀ (w : World) (fuel : Nat) (address leader : String) (st : Run) (k : String),
      (∀ call ∈ Run.since (WalkServers w fuel address leader st).1 st, ¬ call.wrote k) →
      GoMap.get (WalkServers w fuel address leader st).1.c.servers k =
        GoMap.get st.c.servers k) := by
  refine ⟨NewServer_frame, WalkServers_keeps_keys, ?_⟩
  intro w fuel address leader st k h
  obtain ⟨calls, h1, h2⟩ := WalkServers_trace w fuel address leader st
  rw [Run.since_eq _ _ calls h1] at h
  rw [h2]
  exact replay_unwritten k calls st.c h

/-- C10: in every controller reachable from `NewController()` by calls of `NewServer` and
`WalkServers` (successful or failing), every record has DBType "master", "relay" or
"replica" and has the key it is stored under as Address; so the first loop of `renderSVG`
never takes its `log.Fatalf` branch, in whatever order it ranges over the map. -/
theorem Reachable_renderSVG_safe (c : controller) (h : Reachable c) :
    (∀ e ∈ c.servers,
      (e.2.DBType = "master" ∨ e.2.DBType = "relay" ∨ e.2.DBType = "replica") ∧
        e.2.Address = e.1) ∧
    (∀ (k : String) (r : server), GoMap.get c.servers k = some r →
      (r.DBType = "master" ∨ r.DBType = "relay" ∨ r.DBType = "replica") ∧ r.Address = k) ∧
    ∀ entries : List (String × server), List.Perm entries c.servers →
      (renderSVGNodes entries svgNodes.start).isSome = true := by
  have hwf := Reachable_wellFormed c h
  refine ⟨hwf, ?_, ?_⟩
  · intro k r hget
    exact hwf (k, r) (GoMap.mem_of_get _ _ _ hget)
  · intro entries hperm
    exact renderSVGNodes_isSome entries (fun e he => (hwf e (hperm.subset he)).1) _

/-! ### Claims about the walk -/

/-- C5, counterexample: the starting address "s" is a standby without clients. The walk
returns without error and stores for "s" a record that is not a master and whose Follows,
the empty string, is not a key of the store. -/
theorem WalkServers_standby_start :
    (WalkServers worldLoneStandby 2 "s" "" Run.init).2 = WalkResult.returned none ∧
    ∃ r : server,
      GoMap.get (WalkServers worldLoneStandby 2 "s" "" Run.init).1.c.servers "s" = some r ∧
      r.DBType ≠ "master" ∧
      GoMap.get (WalkServers worldLoneStandby 2 "s" "" Run.init).1.c.servers r.Follows = none := by
  refine ⟨by decide, { DBType := "replica", Address := "s", Follows := "", LastSeen := 100,
                       Clients := none }, by decide, by decide, by decide⟩

/-- C5, amended: after `WalkServers(start, "")` on an empty store, however the walk ends,
every record whose DBType is not "master" has a Follows that is a key of the store, except
that the record of `start` may have the empty Follows. -/
theorem WalkServers_follows_is_key (w : World) (fuel : Nat) (start : String)
    (trace : List Call) (k : String) (r : server)
    (hget : GoMap.get
      (WalkServers w fuel start "" { c := NewController, trace := trace }).1.c.servers k = some r)
    (_hr : r.DBType ≠ "master") :
    (GoMap.get
      (WalkServers w fuel start "" { c := NewController, trace := trace }).1.c.servers
        r.Follows).isSome = true ∨ (k = start ∧ r.Follows = "") :=
  WalkServers_followsKnown w start fuel start "" { c := NewController, trace := trace }
    (fun k r h => by simp [NewController, GoMap.get] at h) (Or.inr ⟨rfl, rfl⟩) k r hget

/-- C5, amended, on `treeExample`: the relay "r" stored by the walk from "m" follows "m",
which is a key of the store. -/
theorem WalkServers_follows_is_key_witness :
    (GoMap.get (WalkServers worldTree 3 "m" "" { c := NewController, trace := [] }).1.c.servers
      "m").isSome = true ∨ ("r" = "m" ∧ "m" = "") :=
  WalkServers_follows_is_key worldTree 3 "m" [] "r"
    { DBType := "relay", Address := "r", Follows := "m", LastSeen := 101,
      Clients := some [("l", 101)] }
    (by decide) (by decide)

/-- C6: for every finite replication tree with pairwise distinct addresses in which every
node is reachable, the root is not in recovery, every other node is in recovery and each
node reports exactly its children, `WalkServers(root, "")` on an empty store, with fuel for
the height of the tree, returns no error and leaves a store whose keys are exactly the
nodes of the tree: the root has DBType "master" and empty Follows; every other node has its
parent's address as Follows and DBType "relay" if it has children, "replica" if not. -/
theorem WalkServers_tree (w : World) (t : Tree) (fuel : Nat) (trace : List Call)
    (hdistinct : t.addresses.Nodup) (hw : w.serves t) (hfuel : t.height ≤ fuel) :
    (WalkServers w fuel t.address "" { c := NewController, trace := trace }).2 =
      WalkResult.returned none ∧
    (∀ k, (GoMap.get (WalkServers w fuel t.address ""
        { c := NewController, trace := trace }).1.c.servers k).isSome = true ↔
      k ∈ t.addresses) ∧
    (∃ r : server,
      GoMap.get (WalkServers w fuel t.address ""
        { c := NewController, trace := trace }).1.c.servers t.address = some r ∧
      r.DBType = "master" ∧ r.Follows = "") ∧
    (∀ e ∈ t.edges, ∃ r : server,
      GoMap.get (WalkServers w fuel t.address ""
        { c := NewController, trace := trace }).1.c.servers e.2.address = some r ∧
      r.Follows = e.1 ∧
      r.DBType = if e.2.children.isEmpty then "replica" else "relay") := by
  obtain ⟨h1, h2, h3, h4⟩ :=
    walk_tree w fuel t "" false { c := NewController, trace := trace } hfuel hdistinct hw.1 hw.2
  refine ⟨h1, ?_, ?_, ?_⟩
  · intro k
    constructor
    · intro hk
      by_contra hmem
      rw [h2 k hmem] at hk
      simp [NewController, GoMap.get] at hk
    · intro hk
      rcases List.mem_cons.mp hk with hk | hk
      · obtain ⟨r, hr, _⟩ := h3
        rw [hk, hr]; rfl
      · obtain ⟨e, he, hek⟩ := List.mem_map.mp hk
        obtain ⟨r, hr, _⟩ := h4 e he
        rw [← hek, hr]; rfl
  · obtain ⟨r, hr1, hr2, hr3⟩ := h3
    exact ⟨r, hr1, by rw [hr2]; simp [classify], hr3⟩
  · intro e he
    obtain ⟨r, hr1, hr2, hr3⟩ := h4 e he
    refine ⟨r, hr1, hr3, ?_⟩
    rw [hr2]
    cases hc : e.2.children with
    | nil => simp [classify]
    | cons c cs => simp [classify]

/-- C6 on `treeExample`: the walk from "m" returns no error; the store has exactly the
keys "m", "r", "l", "s"; "m" is the master, "r" a relay that follows "m", "l" a replica
that follows "r", "s" a replica that follows "m". -/
theorem WalkServers_tree_witness :
    (WalkServers worldTree 3 "m" "" Run.init).2 = WalkResult.returned none ∧
    (∀ k, (GoMap.get (WalkServers worldTree 3 "m" "" Run.init).1.c.servers k).isSome = true ↔
      k ∈ ["m", "r", "l", "s"]) ∧
    (∃ r : server,
      GoMap.get (WalkServers worldTree 3 "m" "" Run.init).1.c.servers "m" = some r ∧
      r.DBType = "master" ∧ r.Follows = "") ∧
    (∀ e ∈ treeExample.edges, ∃ r : server,
      GoMap.get (WalkServers worldTree 3 "m" "" Run.init).1.c.servers e.2.address = some r ∧
      r.Follows = e.1 ∧
      r.DBType = if e.2.children.isEmpty then "replica" else "relay") :=
  WalkServers_tree worldTree treeExample 3 [] (by decide)
    ⟨fun n => ⟨100 + n, rfl⟩, fun e he n => by
      have he' : e ∈ [("m", Tree.node "r" [Tree.node "l" []]), ("r", Tree.node "l" []),
          ("m", Tree.node "s" [])] := he
      simp only [List.mem_cons, List.mem_singleton, List.not_mem_nil, or_false] at he'
      rcases he' with h | h | h <;> subst h <;> exact ⟨100 + n, rfl⟩⟩
    (by decide)

/-- C9: in every topology in which all probes succeed and some cycle of client edges is
reachable from the starting address, `WalkServers(start, "")` does not terminate: no amount
of fuel lets the walk return, with or without an error. -/
theorem WalkServers_cycle_never_returns (w : World) (clients : String → List String)
    (start : String) (hw : w.allSucceed clients start) (hcycle : cycleReachable clients start)
    (fuel : Nat) (st : Run) :
    (WalkServers w fuel start "" st).2 = WalkResult.outOfFuel ∧
    ∀ err, (WalkServers w fuel start "" st).2 ≠ WalkResult.returned err := by
  have h := WalkServers_diverges w clients fuel start "" st hw hcycle
  refine ⟨h, ?_⟩
  intro err
  rw [h]
  simp

/-- C9 on two servers that report each other: from "a", with fuel 1000, the walk does not
return. -/
theorem WalkServers_cycle_never_returns_witness :
    (WalkServers worldCycle 1000 "a" "" Run.init).2 = WalkResult.outOfFuel ∧
    ∀ err, (WalkServers worldCycle 1000 "a" "" Run.init).2 ≠ WalkResult.returned err :=
  WalkServers_cycle_never_returns worldCycle clientsCycle "a"
    (fun a _ n => ⟨true, 100 + n, rfl⟩)
    ⟨"a", Relation.ReflTransGen.refl,
      Relation.TransGen.head (show "b" ∈ clientsCycle "a" by decide)
        (Relation.TransGen.single (show "a" ∈ clientsCycle "b" by decide))⟩
    1000 Run.init

/-- C7: on an unchanged topology on which `WalkServers(root, "")` returns, a second
`WalkServers(root, "")` on the store left by the first returns the same way and leaves a
store with the same keys and, for every address, the same DBType and Follows as after the
first run. -/
theorem WalkServers_idempotent (w : World) (fuel : Nat) (root : String) (st : Run)
    (hw : w.unchanged)
    (_hterm : ∃ err, (WalkServers w fuel root "" st).2 = WalkResult.returned err) :
    (WalkServers w fuel root "" (WalkServers w fuel root "" st).1).2 =
      (WalkServers w fuel root "" st).2 ∧
    ∀ k : String,
      (GoMap.get (WalkServers w fuel root "" (WalkServers w fuel root "" st).1).1.c.servers
          k).isSome =
        (GoMap.get (WalkServers w fuel root "" st).1.c.servers k).isSome ∧
      (GoMap.get (WalkServers w fuel root "" (WalkServers w fuel root "" st).1).1.c.servers
          k).map server.DBType =
        (GoMap.get (WalkServers w fuel root "" st).1.c.servers k).map server.DBType ∧
      (GoMap.get (WalkServers w fuel root "" (WalkServers w fuel root "" st).1).1.c.servers
          k).map server.Follows =
        (GoMap.get (WalkServers w fuel root "" st).1.c.servers k).map server.Follows := by
  obtain ⟨hres, xs, ys, _, h2, _, h4, h5⟩ :=
    WalkServers_sim w hw st (WalkServers w fuel root "" st).1 fuel root "" st
      (WalkServers w fuel root "" st).1 ⟨[], [], rfl, rfl, rfl, rfl, List.Forall₂.nil⟩
  refine ⟨hres.symm, ?_⟩
  intro k
  have hsim := written_sim k xs ys h5
  have hrole : (GoMap.get
      (WalkServers w fuel root "" (WalkServers w fuel root "" st).1).1.c.servers k).map role =
      (GoMap.get (WalkServers w fuel root "" st).1.c.servers k).map role := by
    rw [h4, replay_get k ys]
    cases hy : written k ys with
    | none => rfl
    | some r2 =>
        rw [hy] at hsim
        cases hx : written k xs with
        | none => rw [hx] at hsim; simp at hsim
        | some r1 =>
            rw [hx] at hsim
            rw [h2, replay_get k xs, hx]
            exact hsim.symm
  refine ⟨?_, ?_, ?_⟩
  · have := congrArg Option.isSome hrole
    simpa using this
  · have := congrArg (Option.map Prod.fst) hrole
    simpa [Option.map_map, Function.comp_def, role] using this
  · have := congrArg (Option.map Prod.snd) hrole
    simpa [Option.map_map, Function.comp_def, role] using this

/-- C7 on `treeExample`: a second walk from "m" on the store left by the first returns
without error as the first did, and every address has the same DBType and Follows. -/
theorem WalkServers_idempotent_witness :
    (WalkServers worldTree 3 "m" "" (WalkServers worldTree 3 "m" "" Run.init).1).2 =
      (WalkServers worldTree 3 "m" "" Run.init).2 ∧
    ∀ k : String,
      (GoMap.get (WalkServers worldTree 3 "m" ""
          (WalkServers worldTree 3 "m" "" Run.init).1).1.c.servers k).isSome =
        (GoMap.get (WalkServers worldTree 3 "m" "" Run.init).1.c.servers k).isSome ∧
      (GoMap.get (WalkServers worldTree 3 "m" ""
          (WalkServers worldTree 3 "m" "" Run.init).1).1.c.servers k).map server.DBType =
        (GoMap.get (WalkServers worldTree 3 "m" "" Run.init).1.c.servers k).map server.DBType ∧
      (GoMap.get (WalkServers worldTree 3 "m" ""
          (WalkServers worldTree 3 "m" "" Run.init).1).1.c.servers k).map server.Follows =
        (GoMap.get (WalkServers worldTree 3 "m" "" Run.init).1.c.servers k).map server.Follows :=
  WalkServers_idempotent worldTree 3 "m" Run.init
    (fun n m address => by
      simp only [worldTree]
      split_ifs <;> rfl)
    ⟨none, by decide⟩

/-- C10 on the controller left by the walk on `worldBrokenSibling`, which ended in an
error: its records are well formed and `renderSVG` does not reach `log.Fatalf`. -/
theorem Reachable_renderSVG_safe_witness :
    (∀ e ∈ (WalkServers worldBrokenSibling 3 "m" "" Run.init).1.c.servers,
      (e.2.DBType = "master" ∨ e.2.DBType = "relay" ∨ e.2.DBType = "replica") ∧
        e.2.Address = e.1) ∧
    (∀ (k : String) (r : server),
      GoMap.get (WalkServers worldBrokenSibling 3 "m" "" Run.init).1.c.servers k = some r →
      (r.DBType = "master" ∨ r.DBType = "relay" ∨ r.DBType = "replica") ∧ r.Address = k) ∧
    ∀ entries : List (String × server),
      List.Perm entries (WalkServers worldBrokenSibling 3 "m" "" Run.init).1.c.servers →
      (renderSVGNodes entries svgNodes.start).isSome = true :=
  Reachable_renderSVG_safe (WalkServers worldBrokenSibling 3 "m" "" Run.init).1.c
    (Reachable.walk worldBrokenSibling 3 "m" "" NewController [] Reachable.init)

end PgReplicaView
